import Mathlib

/-!
Verification of the GATT characteristic core (server/ble_characteristic.rs).

The Rust source is shallowly embedded below.  Machine integers are modelled
as Nat; the only place where fixed-width arithmetic matters is the u16
subtraction in the negotiated-MTU computation, which is modelled with an
explicit wraparound modulo 2^16.  Fallible native calls are modelled by
oracle parameters (connection lookup result, append success, submission
return code).  A Rust panic (from unwrap on a failed lookup) is modelled as
a status of none.
-/

namespace BleChr

/-! ## Bit constants (values of the esp-idf-sys / NimBLE constants) -/

/-- BLE_GATT_CHR_F_READ -/
def NP_READ : Nat := 0x0002
/-- BLE_GATT_CHR_F_WRITE -/
def NP_WRITE : Nat := 0x0008
/-- BLE_GATT_CHR_F_NOTIFY -/
def NP_NOTIFY : Nat := 0x0010
/-- BLE_GATT_CHR_F_INDICATE -/
def NP_INDICATE : Nat := 0x0020

/-- NimbleSub::Notify -/
def SUB_NOTIFY : Nat := 0x0001
/-- NimbleSub::Indicate -/
def SUB_INDICATE : Nat := 0x0002

/-- bitflags contains: self.bits AND other.bits equals other.bits. -/
def npContains (p f : Nat) : Bool := p &&& f == f

/-- NimbleSub::contains for the subscription bitset. -/
def subContains (s f : Nat) : Bool := s &&& f == f

/-- NimbleSub::is_empty. -/
def subIsEmpty (s : Nat) : Bool := s == 0

/-- BLE_ATT_ERR_UNLIKELY (0x0E). -/
def BLE_ATT_ERR_UNLIKELY : Int := 14
/-- BLE_ATT_ERR_INSUFFICIENT_RES (0x11). -/
def BLE_ATT_ERR_INSUFFICIENT_RES : Int := 17

/-- BLE_GATT_ACCESS_OP_READ_CHR. -/
def OP_READ_CHR : Nat := 0
/-- BLE_GATT_ACCESS_OP_WRITE_CHR. -/
def OP_WRITE_CHR : Nat := 1

/-- Sentinel for an unregistered attribute handle. -/
def NULL_HANDLE : Nat := 0xFFFF

/-! ## AttValue

Modelled from the spec: the generic attribute-value buffer is external to
this core and is treated as an opaque growable byte buffer with
get (value), set, clear and append (extend) operations. -/

/-- Modelled from the spec: the attribute value buffer is a growable byte
buffer; bytes are Nat here. -/
abbrev AttValue := List Nat

/-- Modelled from the spec: AttValue::clear empties the buffer. -/
def AttValue.clear (_ : AttValue) : AttValue := []

/-- Modelled from the spec: AttValue::extend appends bytes at the end. -/
def AttValue.extend (v : AttValue) (s : List Nat) : AttValue := v ++ s

/-! ## Data model -/

/-- One owned descriptor, as far as the characteristic claims need it:
its UUID and its property flags. -/
structure BLEDescriptor where
  uuid : Nat
  properties : Nat
deriving DecidableEq

/-- Embedding of esp_idf_sys::ble_gatt_dsc_def: one entry of the native
descriptor registration table.  The access callback pointer and the opaque
argument are abstracted to a single presence flag. -/
structure BleGattDscDef where
  uuid : Option Nat
  att_flags : Nat
  min_key_size : Nat
  has_access_cb : Bool
deriving DecidableEq

/-- The all-zero terminator entry (ble_gatt_dsc_def::default()). -/
def BleGattDscDef.zero : BleGattDscDef := ⟨none, 0, 0, false⟩

/-- Embedding of BLECharacteristic.  The on_read callback mutates the value
buffer and is modelled as a function on the buffer; the on_write callback
only observes the written bytes, so only its presence is recorded. -/
structure BLECharacteristic where
  uuid : Nat
  handle : Nat
  properties : Nat
  value : AttValue
  on_read : Option (AttValue → AttValue)
  has_on_write : Bool
  descriptors : List BLEDescriptor
  svc_def_descriptors : List BleGattDscDef
  subscribed_list : List (Nat × Nat)

/-- BLECharacteristic::new. -/
def BLECharacteristic.new (uuid properties : Nat) : BLECharacteristic :=
  { uuid := uuid
    handle := NULL_HANDLE
    properties := properties
    value := []
    on_read := none
    has_on_write := false
    descriptors := []
    svc_def_descriptors := []
    subscribed_list := [] }

/-- BLECharacteristic::set_value. -/
def BLECharacteristic.set_value (c : BLECharacteristic) (v : List Nat) : BLECharacteristic :=
  { c with value := v }

/-- BLECharacteristic::create_descriptor: appends an owned descriptor and
returns it. -/
def BLECharacteristic.create_descriptor (c : BLECharacteristic) (uuid properties : Nat) :
    BLECharacteristic × BLEDescriptor :=
  ({ c with descriptors := c.descriptors ++ [⟨uuid, properties⟩] }, ⟨uuid, properties⟩)

/-! ## Descriptor table construction -/

/-- The table entry built for one descriptor inside
construct_svc_def_descriptors.  The source stores dsc.properties.bits()
(a u16) into the u8 att_flags field with a truncating cast, so only the
low 8 bits survive (flags at 0x100 and above are lost). -/
def dscEntry (d : BLEDescriptor) : BleGattDscDef :=
  ⟨some d.uuid, d.properties % 256, 0, true⟩

/-- BLECharacteristic::construct_svc_def_descriptors.  The returned raw
pointer is modelled as an Option: none is the null pointer, and some t is a
pointer to the rebuilt table t (which is also stored in the state). -/
def construct_svc_def_descriptors (c : BLECharacteristic) :
    BLECharacteristic × Option (List BleGattDscDef) :=
  if c.descriptors.isEmpty then (c, none)
  else
    -- clear, push one entry per descriptor in order, then push the zero entry
    let t := c.descriptors.foldl (fun acc d => acc ++ [dscEntry d]) [] ++ [BleGattDscDef.zero]
    ({ c with svc_def_descriptors := t }, some t)

/-! ## Server singleton (indicate in-flight tracking)

Modelled from the spec: the BLEServer singleton is external to this core; it
exposes set/clear/check of a per-connection indicate-pending flag.
set_indicate_wait returns false when an indication is already in flight for
that connection, otherwise marks it in flight and returns true;
clear_indicate_wait removes the mark. -/

/-- Modelled from the spec: process-wide indicate-in-flight state, keyed by
connection handle. -/
structure ServerState where
  indicateInFlight : List Nat
deriving DecidableEq

/-- Modelled from the spec: BLEServer::set_indicate_wait. -/
def setIndicateWait (srv : ServerState) (conn : Nat) : Bool × ServerState :=
  if conn ∈ srv.indicateInFlight then (false, srv)
  else (true, ⟨conn :: srv.indicateInFlight⟩)

/-- Modelled from the spec: BLEServer::clear_indicate_wait. -/
def clearIndicateWait (srv : ServerState) (conn : Nat) : ServerState :=
  ⟨srv.indicateInFlight.erase conn⟩

/-! ## Notify / fan-out -/

/-- Kind of an outbound submission made by notify(). -/
inductive CallKind where
  | indicate
  | notify
deriving DecidableEq

/-- One outbound submission (ble_gattc_indicate_custom or
ble_gattc_notify_custom) observed during notify(). -/
structure NotifyCall where
  conn : Nat
  kind : CallKind
  payload : List Nat
deriving DecidableEq

/-- The body of the for-loop of BLECharacteristic::notify for one entry of
subscribed_list.  mtuOf is the ble_att_mtu oracle (a u16), rcOf the return
code of ble_gattc_indicate_custom.  The u16 subtraction mtu - 3 wraps
modulo 2^16. -/
def notifyStep (c : BLECharacteristic) (mtuOf : Nat → Nat) (rcOf : Nat → Int)
    (srv : ServerState) (conn flags : Nat) : ServerState × List NotifyCall :=
  if (mtuOf conn + 65533) % 65536 = 0 ∨ subIsEmpty flags = true then (srv, [])
  else if subContains flags SUB_INDICATE = true ∧ npContains c.properties NP_INDICATE = true then
    if (setIndicateWait srv conn).1 = false then ((setIndicateWait srv conn).2, [])
    else if rcOf conn ≠ 0 then
      (clearIndicateWait (setIndicateWait srv conn).2 conn, [⟨conn, CallKind.indicate, c.value⟩])
    else ((setIndicateWait srv conn).2, [⟨conn, CallKind.indicate, c.value⟩])
  else if subContains flags SUB_NOTIFY = true ∧ npContains c.properties NP_NOTIFY = true then
    (srv, [⟨conn, CallKind.notify, c.value⟩])
  else (srv, [])

/-- The for-loop of notify() over the subscription list, threading the
server state and concatenating the outbound calls in order. -/
def notifyLoop (c : BLECharacteristic) (mtuOf : Nat → Nat) (rcOf : Nat → Int) :
    ServerState → List (Nat × Nat) → ServerState × List NotifyCall
  | srv, [] => (srv, [])
  | srv, e :: rest =>
    let s1 := notifyStep c mtuOf rcOf srv e.1 e.2
    let s2 := notifyLoop c mtuOf rcOf s1.1 rest
    (s2.1, s1.2 ++ s2.2)

/-- BLECharacteristic::notify. -/
def notify (c : BLECharacteristic) (mtuOf : Nat → Nat) (rcOf : Nat → Int)
    (srv : ServerState) : ServerState × List NotifyCall :=
  if c.subscribed_list.isEmpty then (srv, [])
  else notifyLoop c mtuOf rcOf srv c.subscribed_list

/-! ## Access event handling -/

/-- Connection descriptor, as returned by the external
ble_gap_conn_find lookup. -/
structure ConnDesc where
  conn_handle : Nat
deriving DecidableEq

/-- The parts of ble_gatt_access_ctxt the handler inspects: the UUID of the
accessed characteristic, the operation kind, and the inbound mbuf — its
packet-header length (read path heuristic) and its chained data segments
(write path). -/
structure AccessCtxt where
  chr_uuid : Nat
  op : Nat
  om_pkthdr_len : Nat
  om_segments : List (List Nat)

/-- Everything observable about one call of handle_gap_event: the
characteristic state at exit (or at the panic point), the bytes appended to
the outbound mbuf (read path), the bytes handed to the on_write callback (if
it was invoked), whether the on_read callback was invoked, and the returned
status — none models a panic of the unwrap on a failed connection lookup. -/
structure GapResult where
  chr : BLECharacteristic
  appended : Option (List Nat)
  write_cb_arg : Option (List Nat)
  read_cb_invoked : Bool
  status : Option Int

/-- BLECharacteristic::handle_gap_event.  lookup is the result of the
external ble_gap_conn_find, mtuOf the ble_att_mtu oracle (u16), appendOk
whether os_mbuf_append returned 0.  The u16 computation mtu - 3 wraps
modulo 2^16 before the cast to usize. -/
def handle_gap_event (c : BLECharacteristic) (ctxt : AccessCtxt)
    (lookup : Option ConnDesc) (mtuOf : Nat → Nat) (appendOk : Bool) : GapResult :=
  if ctxt.chr_uuid ≠ c.uuid then
    -- ble_uuid_cmp != 0
    ⟨c, none, none, false, some BLE_ATT_ERR_UNLIKELY⟩
  else if ctxt.op = OP_READ_CHR then
    match lookup with
    | none => ⟨c, none, none, false, none⟩  -- unwrap panics
    | some desc =>
      if 8 < ctxt.om_pkthdr_len ∨
          c.value.length ≤ (mtuOf desc.conn_handle + 65533) % 65536 then
        match c.on_read with
        | some cb =>
          ⟨{ c with value := cb c.value }, some (cb c.value), none, true,
            some (if appendOk then 0 else BLE_ATT_ERR_INSUFFICIENT_RES)⟩
        | none =>
          ⟨c, some c.value, none, false,
            some (if appendOk then 0 else BLE_ATT_ERR_INSUFFICIENT_RES)⟩
      else
        ⟨c, some c.value, none, false,
          some (if appendOk then 0 else BLE_ATT_ERR_INSUFFICIENT_RES)⟩
  else if ctxt.op = OP_WRITE_CHR then
    -- value.clear(), then extend with each chained segment in order
    let v := ctxt.om_segments.foldl AttValue.extend (AttValue.clear c.value)
    match lookup with
    | none => ⟨{ c with value := v }, none, none, false, none⟩  -- unwrap panics
    | some _ =>
      ⟨{ c with value := v }, none, (if c.has_on_write then some v else none), false, some 0⟩
  else
    ⟨c, none, none, false, some BLE_ATT_ERR_UNLIKELY⟩

/-! ## Subscription update -/

/-- Vec::iter().position of the first entry whose connection handle is h. -/
def positionConn : List (Nat × Nat) → Nat → Option Nat
  | [], _ => none
  | x :: xs, h => if x.1 = h then some 0 else (positionConn xs h).map (· + 1)

/-- Vec::swap_remove: overwrite position i with the last element, then drop
the last element. -/
def swapRemove (l : List (Nat × Nat)) (i : Nat) : List (Nat × Nat) :=
  match l.getLast? with
  | none => l
  | some last => (l.set i last).dropLast

/-- The sub_val computation of BLECharacteristic::subscribe: requested
notify/indicate indicators masked by the capability flags. -/
def subVal (properties cur_notify cur_indicate : Nat) : Nat :=
  let sv : Nat := 0
  let sv := if 0 < cur_notify ∧ npContains properties NP_NOTIFY = true
            then sv ||| SUB_NOTIFY else sv
  if 0 < cur_indicate ∧ npContains properties NP_INDICATE = true
  then sv ||| SUB_INDICATE else sv

/-- The subscribed_list update of BLECharacteristic::subscribe. -/
def subUpdate (l : List (Nat × Nat)) (h sv : Nat) : List (Nat × Nat) :=
  match positionConn l h with
  | some idx =>
    if subIsEmpty sv = false then l.set idx (h, sv)
    else swapRemove l idx
  | none =>
    if subIsEmpty sv = false then l ++ [(h, sv)]
    else l

/-- BLECharacteristic::subscribe.  lookup_ok is whether the external
ble_gap_conn_find succeeded (it returns nonzero on failure, in which case
the event is dropped). -/
def subscribe (c : BLECharacteristic) (conn_handle cur_notify cur_indicate : Nat)
    (lookup_ok : Bool) : BLECharacteristic :=
  if lookup_ok = false then c
  else
    let sv := subVal c.properties cur_notify cur_indicate
    { c with subscribed_list := subUpdate c.subscribed_list conn_handle sv }

/-! ## Spec-side definitions

These are written from the words of the spec, to be compared with the
source-derived definitions above. -/

/-- Spec wording: in-order concatenation of all chained inbound buffer
segments. -/
def concatSegs : List (List Nat) → List Nat
  | [] => []
  | s :: ss => s ++ concatSegs ss

/-- Spec wording: the subscription flags the peer requested, from the raw
notify/indicate indicators. -/
def requestedFlags (cur_notify cur_indicate : Nat) : Nat :=
  (if 0 < cur_notify then SUB_NOTIFY else 0) |||
  (if 0 < cur_indicate then SUB_INDICATE else 0)

/-- Spec wording: the Notify/Indicate capability flags of the
characteristic. -/
def capabilityFlags (properties : Nat) : Nat :=
  (if npContains properties NP_NOTIFY = true then SUB_NOTIFY else 0) |||
  (if npContains properties NP_INDICATE = true then SUB_INDICATE else 0)

/-- First-match lookup of the subscription flags of a connection handle in
subscribed_list. -/
def subLookup : List (Nat × Nat) → Nat → Option Nat
  | [], _ => none
  | x :: xs, h => if x.1 = h then some x.2 else subLookup xs h

/-- The subscribed_list invariant: at most one entry per connection handle,
and every entry has non-empty flags within the capability flags. -/
abbrev SubInv (properties : Nat) (l : List (Nat × Nat)) : Prop :=
  (l.map Prod.fst).Nodup ∧
  ∀ e ∈ l, e.2 ≠ 0 ∧ e.2 &&& capabilityFlags properties = e.2

/-! ## Helper lemmas: bitset facts -/

theorem subIsEmpty_eq_false_iff {s : Nat} : subIsEmpty s = false ↔ s ≠ 0 := by
  simp [subIsEmpty]

theorem ne_zero_of_subContains {f b : Nat} (hb : b ≠ 0) (h : subContains f b = true) :
    f ≠ 0 := by
  rintro rfl
  simp only [subContains, Nat.zero_and, beq_iff_eq] at h
  exact hb h.symm

/-! ## Helper lemmas: positionConn -/

theorem positionConn_cons_zero {x : Nat × Nat} {xs : List (Nat × Nat)} {h : Nat}
    (hp : positionConn (x :: xs) h = some 0) : x.1 = h := by
  by_cases he : x.1 = h
  · exact he
  · simp only [positionConn, if_neg he, Option.map_eq_some'] at hp
    obtain ⟨j, -, hj⟩ := hp
    omega

theorem positionConn_cons_succ {x : Nat × Nat} {xs : List (Nat × Nat)} {h i : Nat}
    (hp : positionConn (x :: xs) h = some (i + 1)) :
    x.1 ≠ h ∧ positionConn xs h = some i := by
  by_cases he : x.1 = h
  · simp [positionConn, if_pos he] at hp
  · simp only [positionConn, if_neg he, Option.map_eq_some'] at hp
    obtain ⟨j, hj, hj'⟩ := hp
    have hji : j = i := by omega
    exact ⟨he, hji ▸ hj⟩

theorem positionConn_cons_none {x : Nat × Nat} {xs : List (Nat × Nat)} {h : Nat}
    (hp : positionConn (x :: xs) h = none) :
    x.1 ≠ h ∧ positionConn xs h = none := by
  by_cases he : x.1 = h
  · simp [positionConn, if_pos he] at hp
  · simp only [positionConn, if_neg he, Option.map_eq_none'] at hp
    exact ⟨he, hp⟩

theorem positionConn_lt {l : List (Nat × Nat)} {h i : Nat}
    (hp : positionConn l h = some i) : i < l.length := by
  induction l generalizing i with
  | nil => simp [positionConn] at hp
  | cons x xs ih =>
    cases i with
    | zero => simp
    | succ j =>
      have := (positionConn_cons_succ hp).2
      simpa using Nat.succ_lt_succ (ih this)

theorem positionConn_none_keys {l : List (Nat × Nat)} {h : Nat}
    (hp : positionConn l h = none) : ∀ x ∈ l, x.1 ≠ h := by
  induction l with
  | nil => simp
  | cons x xs ih =>
    obtain ⟨h1, h2⟩ := positionConn_cons_none hp
    intro y hy0
    rcases List.mem_cons.mp hy0 with rfl | hy1
    · exact h1
    · exact ih h2 y hy1

/-! ## Helper lemmas: subLookup -/

theorem subLookup_eq_none_iff {l : List (Nat × Nat)} {h : Nat} :
    subLookup l h = none ↔ ∀ x ∈ l, x.1 ≠ h := by
  induction l with
  | nil => simp [subLookup]
  | cons x xs ih =>
    by_cases he : x.1 = h
    · simp [subLookup, if_pos he, he]
    · simp only [subLookup, if_neg he, ih, List.mem_cons]
      constructor
      · rintro ha y (rfl | hy)
        · exact he
        · exact ha y hy
      · intro ha y hy
        exact ha y (Or.inr hy)

theorem subLookup_mem {l : List (Nat × Nat)} {h v : Nat}
    (hs : subLookup l h = some v) : (h, v) ∈ l := by
  induction l with
  | nil => simp [subLookup] at hs
  | cons x xs ih =>
    obtain ⟨k, w⟩ := x
    by_cases he : k = h
    · subst he
      rw [subLookup, if_pos rfl] at hs
      injection hs with hs
      subst hs
      exact List.mem_cons_self _ _
    · rw [subLookup, if_neg he] at hs
      exact List.mem_cons_of_mem _ (ih hs)

theorem subLookup_of_mem {l : List (Nat × Nat)} {h v : Nat}
    (hn : (l.map Prod.fst).Nodup) (hm : (h, v) ∈ l) : subLookup l h = some v := by
  induction l with
  | nil => simp at hm
  | cons x xs ih =>
    simp only [List.map_cons, List.nodup_cons] at hn
    rcases List.mem_cons.mp hm with rfl | hm'
    · simp [subLookup]
    · have he : x.1 ≠ h := by
        intro he
        exact hn.1 (he ▸ List.mem_map.mpr ⟨(h, v), hm', rfl⟩)
      simp only [subLookup, if_neg he]
      exact ih hn.2 hm'

theorem subLookup_congr_perm {l l' : List (Nat × Nat)} {h : Nat}
    (hp : l.Perm l') (hn : (l.map Prod.fst).Nodup) :
    subLookup l h = subLookup l' h := by
  have hn' : (l'.map Prod.fst).Nodup := ((hp.map Prod.fst).nodup_iff).mp hn
  cases hs : subLookup l h with
  | none =>
    symm
    rw [subLookup_eq_none_iff] at hs ⊢
    exact fun x hx => hs x (hp.mem_iff.mpr hx)
  | some v =>
    exact (subLookup_of_mem hn' (hp.mem_iff.mp (subLookup_mem hs))).symm

/-! ## Helper lemmas: swapRemove -/

theorem swapRemove_cons_succ {a : Nat × Nat} {xs : List (Nat × Nat)} {i : Nat}
    (hxs : xs ≠ []) : swapRemove (a :: xs) (i + 1) = a :: swapRemove xs i := by
  obtain ⟨b, t, rfl⟩ := List.exists_cons_of_ne_nil hxs
  have hl := List.getLast?_eq_getLast (b :: t) (by simp)
  simp only [swapRemove, List.getLast?_cons_cons, hl, List.set_cons_succ]
  cases i with
  | zero => simp [List.set_cons_zero, List.dropLast_cons₂]
  | succ j =>
    cases t with
    | nil => simp [List.set_cons_succ, List.dropLast_cons₂]
    | cons u w => simp [List.set_cons_succ, List.dropLast_cons₂]

theorem swapRemove_perm {l : List (Nat × Nat)} {i : Nat} (hi : i < l.length) :
    (swapRemove l i).Perm (l.eraseIdx i) := by
  induction l generalizing i with
  | nil => simp at hi
  | cons a xs ih =>
    cases i with
    | zero =>
      cases xs with
      | nil => simp [swapRemove]
      | cons b t =>
        have hne : (b :: t) ≠ ([] : List (Nat × Nat)) := by simp
        have hl := List.getLast?_eq_getLast (b :: t) hne
        simp only [swapRemove, List.getLast?_cons_cons, hl, List.set_cons_zero,
          List.dropLast_cons₂, List.eraseIdx]
        have heq := List.dropLast_append_getLast hne
        have hperm : ((b :: t).getLast hne :: (b :: t).dropLast).Perm
            ((b :: t).dropLast ++ [(b :: t).getLast hne]) :=
          @List.perm_append_comm _ [(b :: t).getLast hne] (b :: t).dropLast
        rw [heq] at hperm
        exact hperm
    | succ j =>
      have hj : j < xs.length := by simpa using hi
      have hne : xs ≠ [] := by
        intro h
        subst h
        simp at hj
      rw [swapRemove_cons_succ hne]
      simpa [List.eraseIdx] using (ih hj).cons a

theorem mem_swapRemove {l : List (Nat × Nat)} {i : Nat} {x : Nat × Nat}
    (hi : i < l.length) (hx : x ∈ swapRemove l i) : x ∈ l :=
  (List.eraseIdx_sublist l i).subset ((swapRemove_perm hi).mem_iff.mp hx)

theorem nodup_fst_swapRemove {l : List (Nat × Nat)} {i : Nat}
    (hi : i < l.length) (hn : (l.map Prod.fst).Nodup) :
    ((swapRemove l i).map Prod.fst).Nodup :=
  (((swapRemove_perm hi).map Prod.fst).nodup_iff).mpr
    (List.Nodup.sublist (List.Sublist.map Prod.fst (List.eraseIdx_sublist l i)) hn)

/-! ## Helper lemmas: the three subscribed_list updates -/

theorem subLookup_set_self {l : List (Nat × Nat)} {h sv i : Nat}
    (hp : positionConn l h = some i) :
    subLookup (l.set i (h, sv)) h = some sv := by
  induction l generalizing i with
  | nil => simp [positionConn] at hp
  | cons x xs ih =>
    cases i with
    | zero =>
      rw [List.set_cons_zero, subLookup, if_pos rfl]
    | succ j =>
      obtain ⟨he, hp'⟩ := positionConn_cons_succ hp
      rw [List.set_cons_succ, subLookup, if_neg he]
      exact ih hp'

theorem subLookup_set_other {l : List (Nat × Nat)} {h sv i h2 : Nat}
    (hp : positionConn l h = some i) (hne : h2 ≠ h) :
    subLookup (l.set i (h, sv)) h2 = subLookup l h2 := by
  induction l generalizing i with
  | nil => simp [positionConn] at hp
  | cons x xs ih =>
    cases i with
    | zero =>
      have he := positionConn_cons_zero hp
      rw [List.set_cons_zero, subLookup, if_neg (fun hc => hne hc.symm),
        subLookup, if_neg (fun hc : x.1 = h2 => hne (he ▸ hc).symm)]
    | succ j =>
      obtain ⟨he, hp'⟩ := positionConn_cons_succ hp
      rw [List.set_cons_succ, subLookup, subLookup]
      by_cases hx2 : x.1 = h2
      · rw [if_pos hx2, if_pos hx2]
      · rw [if_neg hx2, if_neg hx2]
        exact ih hp'

theorem map_fst_set {l : List (Nat × Nat)} {h sv i : Nat}
    (hp : positionConn l h = some i) :
    (l.set i (h, sv)).map Prod.fst = l.map Prod.fst := by
  induction l generalizing i with
  | nil => simp [positionConn] at hp
  | cons x xs ih =>
    cases i with
    | zero =>
      have he := positionConn_cons_zero hp
      rw [List.set_cons_zero, List.map_cons, List.map_cons, he]
    | succ j =>
      obtain ⟨-, hp'⟩ := positionConn_cons_succ hp
      rw [List.set_cons_succ, List.map_cons, List.map_cons, ih hp']

theorem subLookup_eraseIdx_self {l : List (Nat × Nat)} {h i : Nat}
    (hp : positionConn l h = some i) (hn : (l.map Prod.fst).Nodup) :
    subLookup (l.eraseIdx i) h = none := by
  induction l generalizing i with
  | nil => simp [positionConn] at hp
  | cons x xs ih =>
    simp only [List.map_cons, List.nodup_cons] at hn
    cases i with
    | zero =>
      have he := positionConn_cons_zero hp
      show subLookup xs h = none
      rw [subLookup_eq_none_iff]
      intro y hy hyh
      exact hn.1 (he ▸ hyh ▸ List.mem_map.mpr ⟨y, hy, rfl⟩)
    | succ j =>
      obtain ⟨he, hp'⟩ := positionConn_cons_succ hp
      show subLookup (x :: xs.eraseIdx j) h = none
      rw [subLookup, if_neg he]
      exact ih hp' hn.2

theorem subLookup_eraseIdx_other {l : List (Nat × Nat)} {h i h2 : Nat}
    (hp : positionConn l h = some i) (hne : h2 ≠ h) :
    subLookup (l.eraseIdx i) h2 = subLookup l h2 := by
  induction l generalizing i with
  | nil => simp [positionConn] at hp
  | cons x xs ih =>
    cases i with
    | zero =>
      have he := positionConn_cons_zero hp
      show subLookup xs h2 = subLookup (x :: xs) h2
      rw [subLookup, if_neg (fun hc : x.1 = h2 => hne (he ▸ hc).symm)]
    | succ j =>
      obtain ⟨-, hp'⟩ := positionConn_cons_succ hp
      show subLookup (x :: xs.eraseIdx j) h2 = subLookup (x :: xs) h2
      rw [subLookup, subLookup]
      by_cases hx2 : x.1 = h2
      · rw [if_pos hx2, if_pos hx2]
      · rw [if_neg hx2, if_neg hx2]
        exact ih hp'

theorem subLookup_append_self {l : List (Nat × Nat)} {h sv : Nat}
    (hp : positionConn l h = none) :
    subLookup (l ++ [(h, sv)]) h = some sv := by
  induction l with
  | nil => rw [List.nil_append, subLookup, if_pos rfl]
  | cons x xs ih =>
    obtain ⟨he, hp'⟩ := positionConn_cons_none hp
    rw [List.cons_append, subLookup, if_neg he]
    exact ih hp'

theorem subLookup_append_other {l : List (Nat × Nat)} {h sv h2 : Nat}
    (hne : h2 ≠ h) :
    subLookup (l ++ [(h, sv)]) h2 = subLookup l h2 := by
  induction l with
  | nil =>
    have hhc : ¬((h, sv).1 = h2) := fun hc => hne hc.symm
    simp [subLookup, hhc]
  | cons x xs ih =>
    rw [List.cons_append, subLookup, subLookup]
    by_cases hx2 : x.1 = h2
    · rw [if_pos hx2, if_pos hx2]
    · rw [if_neg hx2, if_neg hx2]
      exact ih

theorem subLookup_none_of_positionConn_none {l : List (Nat × Nat)} {h : Nat}
    (hp : positionConn l h = none) : subLookup l h = none :=
  subLookup_eq_none_iff.mpr (positionConn_none_keys hp)

/-! ## Helper lemmas: subVal versus the spec wording -/

theorem subVal_eq_masked (p cn ci : Nat) :
    subVal p cn ci = requestedFlags cn ci &&& capabilityFlags p := by
  by_cases h1 : 0 < cn <;> by_cases h2 : 0 < ci <;>
    by_cases h3 : npContains p NP_NOTIFY = true <;>
    by_cases h4 : npContains p NP_INDICATE = true <;>
    simp [subVal, requestedFlags, capabilityFlags, h1, h2, h3, h4] <;> decide

theorem subVal_masked_self (p cn ci : Nat) :
    subVal p cn ci &&& capabilityFlags p = subVal p cn ci := by
  by_cases h1 : 0 < cn <;> by_cases h2 : 0 < ci <;>
    by_cases h3 : npContains p NP_NOTIFY = true <;>
    by_cases h4 : npContains p NP_INDICATE = true <;>
    simp [subVal, capabilityFlags, h1, h2, h3, h4] <;> decide

/-! ## Helper lemmas: subUpdate characterization -/

theorem subUpdate_lookup_self {l : List (Nat × Nat)} {h sv : Nat}
    (hn : (l.map Prod.fst).Nodup) :
    subLookup (subUpdate l h sv) h = if sv = 0 then none else some sv := by
  cases hp : positionConn l h with
  | some i =>
    simp only [subUpdate, hp]
    by_cases hz : sv = 0
    · rw [if_neg (by simp [subIsEmpty, hz]), if_pos hz]
      have hi := positionConn_lt hp
      rw [subLookup_congr_perm (swapRemove_perm hi) (nodup_fst_swapRemove hi hn)]
      exact subLookup_eraseIdx_self hp hn
    · rw [if_pos (subIsEmpty_eq_false_iff.mpr hz), if_neg hz]
      exact subLookup_set_self hp
  | none =>
    simp only [subUpdate, hp]
    by_cases hz : sv = 0
    · rw [if_neg (by simp [subIsEmpty, hz]), if_pos hz]
      exact subLookup_none_of_positionConn_none hp
    · rw [if_pos (subIsEmpty_eq_false_iff.mpr hz), if_neg hz]
      exact subLookup_append_self hp

theorem subUpdate_lookup_other {l : List (Nat × Nat)} {h sv h2 : Nat}
    (hn : (l.map Prod.fst).Nodup) (hne : h2 ≠ h) :
    subLookup (subUpdate l h sv) h2 = subLookup l h2 := by
  cases hp : positionConn l h with
  | some i =>
    simp only [subUpdate, hp]
    by_cases hz : sv = 0
    · rw [if_neg (by simp [subIsEmpty, hz])]
      have hi := positionConn_lt hp
      rw [subLookup_congr_perm (swapRemove_perm hi) (nodup_fst_swapRemove hi hn)]
      exact subLookup_eraseIdx_other hp hne
    · rw [if_pos (subIsEmpty_eq_false_iff.mpr hz)]
      exact subLookup_set_other hp hne
  | none =>
    simp only [subUpdate, hp]
    by_cases hz : sv = 0
    · rw [if_neg (by simp [subIsEmpty, hz])]
    · rw [if_pos (subIsEmpty_eq_false_iff.mpr hz)]
      exact subLookup_append_other hne

/-! ## Helper lemmas: invariant preservation of subUpdate -/

theorem subUpdate_inv {p : Nat} {l : List (Nat × Nat)} {h sv : Nat}
    (hn : SubInv p l) (hsv : sv &&& capabilityFlags p = sv) :
    SubInv p (subUpdate l h sv) := by
  cases hp : positionConn l h with
  | some i =>
    simp only [subUpdate, hp]
    by_cases hz : sv = 0
    · rw [if_neg (by simp [subIsEmpty, hz])]
      have hi := positionConn_lt hp
      exact ⟨nodup_fst_swapRemove hi hn.1,
        fun e he => hn.2 e (mem_swapRemove hi he)⟩
    · rw [if_pos (subIsEmpty_eq_false_iff.mpr hz)]
      refine ⟨by rw [map_fst_set hp]; exact hn.1, fun e he => ?_⟩
      rcases List.mem_or_eq_of_mem_set he with hm | rfl
      · exact hn.2 e hm
      · exact ⟨hz, hsv⟩
  | none =>
    simp only [subUpdate, hp]
    by_cases hz : sv = 0
    · rw [if_neg (by simp [subIsEmpty, hz])]
      exact hn
    · rw [if_pos (subIsEmpty_eq_false_iff.mpr hz)]
      constructor
      · rw [List.map_append]
        rw [List.nodup_append]
        refine ⟨hn.1, by simp, fun a ha hb => ?_⟩
        obtain ⟨e, he, rfl⟩ := List.mem_map.mp ha
        simp only [List.map_cons, List.map_nil, List.mem_singleton] at hb
        exact positionConn_none_keys hp e he hb
      · intro e he
        rcases List.mem_append.mp he with hm | hm
        · exact hn.2 e hm
        · simp only [List.mem_singleton] at hm
          subst hm
          exact ⟨hz, hsv⟩

/-! ## Helper lemmas: write reassembly -/

theorem foldl_extend_eq_concat (ss : List (List Nat)) (acc : List Nat) :
    ss.foldl AttValue.extend acc = acc ++ concatSegs ss := by
  induction ss generalizing acc with
  | nil => simp [concatSegs]
  | cons s ss ih =>
    simp only [List.foldl_cons, concatSegs, ih, AttValue.extend, List.append_assoc]

/-! ## Helper lemmas: descriptor table -/

theorem foldl_dscEntry (ds : List BLEDescriptor) (acc : List BleGattDscDef) :
    ds.foldl (fun acc d => acc ++ [dscEntry d]) acc = acc ++ ds.map dscEntry := by
  induction ds generalizing acc with
  | nil => simp
  | cons d ds ih =>
    simp only [List.foldl_cons, List.map_cons, ih, List.append_assoc, List.cons_append,
      List.nil_append]

/-! ## Helper lemmas: the notify loop -/

theorem notifyStep_conn {c : BLECharacteristic} {mtuOf : Nat → Nat} {rcOf : Nat → Int}
    {srv : ServerState} {conn flags : Nat} {x : NotifyCall}
    (hx : x ∈ (notifyStep c mtuOf rcOf srv conn flags).2) : x.conn = conn := by
  unfold notifyStep at hx
  split_ifs at hx <;> simp_all

theorem notifyStep_kind_of_indicate {c : BLECharacteristic} {mtuOf : Nat → Nat}
    {rcOf : Nat → Int} {srv : ServerState} {conn flags : Nat} {x : NotifyCall}
    (hc : subContains flags SUB_INDICATE = true ∧ npContains c.properties NP_INDICATE = true)
    (hx : x ∈ (notifyStep c mtuOf rcOf srv conn flags).2) : x.kind = CallKind.indicate := by
  unfold notifyStep at hx
  split_ifs at hx <;> simp_all

theorem notifyStep_kind_of_not_indicate {c : BLECharacteristic} {mtuOf : Nat → Nat}
    {rcOf : Nat → Int} {srv : ServerState} {conn flags : Nat} {x : NotifyCall}
    (hc : ¬(subContains flags SUB_INDICATE = true ∧
        npContains c.properties NP_INDICATE = true))
    (hx : x ∈ (notifyStep c mtuOf rcOf srv conn flags).2) : x.kind = CallKind.notify := by
  unfold notifyStep at hx
  split_ifs at hx <;> simp_all

theorem notifyLoop_mem {c : BLECharacteristic} {mtuOf : Nat → Nat} {rcOf : Nat → Int}
    {l : List (Nat × Nat)} {srv : ServerState} {x : NotifyCall}
    (hx : x ∈ (notifyLoop c mtuOf rcOf srv l).2) :
    ∃ e ∈ l, ∃ s2, x ∈ (notifyStep c mtuOf rcOf s2 e.1 e.2).2 := by
  induction l generalizing srv with
  | nil => simp [notifyLoop] at hx
  | cons e rest ih =>
    simp only [notifyLoop, List.mem_append] at hx
    rcases hx with hx | hx
    · exact ⟨e, List.mem_cons_self _ _, srv, hx⟩
    · obtain ⟨e', he', s2, hs2⟩ := ih hx
      exact ⟨e', List.mem_cons_of_mem _ he', s2, hs2⟩

/-- Entries of subscribed_list with the same connection handle are equal
when the handles are nodup. -/
theorem entry_eq_of_fst_eq {l : List (Nat × Nat)} {e1 e2 : Nat × Nat}
    (hn : (l.map Prod.fst).Nodup) (h1 : e1 ∈ l) (h2 : e2 ∈ l)
    (he : e1.1 = e2.1) : e1 = e2 :=
  List.inj_on_of_nodup_map hn h1 h2 he

/-- The wrapped u16 computation mtu - 3 is zero exactly at mtu = 3 (for a
genuine u16 input). -/
theorem mtu_wrap_eq_zero_iff {m : Nat} (hm : m < 65536) :
    (m + 65533) % 65536 = 0 ↔ m = 3 := by
  omega

/-! ## Shared facts about the write path of handle_gap_event -/

theorem hge_write_value (c : BLECharacteristic) (ctxt : AccessCtxt)
    (lookup : Option ConnDesc) (mtuOf : Nat → Nat) (appendOk : Bool)
    (hop : ctxt.op = OP_WRITE_CHR) (hu : ctxt.chr_uuid = c.uuid) :
    (handle_gap_event c ctxt lookup mtuOf appendOk).chr.value =
      concatSegs ctxt.om_segments := by
  have h1 : ¬(ctxt.chr_uuid ≠ c.uuid) := fun hne => hne hu
  have h2 : ¬(ctxt.op = OP_READ_CHR) := by rw [hop]; decide
  unfold handle_gap_event
  rw [if_neg h1, if_neg h2, if_pos hop]
  cases lookup <;> simp [foldl_extend_eq_concat, AttValue.clear]

theorem hge_write_panic (c : BLECharacteristic) (ctxt : AccessCtxt)
    (mtuOf : Nat → Nat) (appendOk : Bool)
    (hop : ctxt.op = OP_WRITE_CHR) (hu : ctxt.chr_uuid = c.uuid) :
    (handle_gap_event c ctxt none mtuOf appendOk).write_cb_arg = none ∧
    (handle_gap_event c ctxt none mtuOf appendOk).status = none := by
  have h1 : ¬(ctxt.chr_uuid ≠ c.uuid) := fun hne => hne hu
  have h2 : ¬(ctxt.op = OP_READ_CHR) := by rw [hop]; decide
  unfold handle_gap_event
  rw [if_neg h1, if_neg h2, if_pos hop]
  exact ⟨rfl, rfl⟩

theorem hge_write_ok_status (c : BLECharacteristic) (ctxt : AccessCtxt)
    (d : ConnDesc) (mtuOf : Nat → Nat) (appendOk : Bool)
    (hop : ctxt.op = OP_WRITE_CHR) (hu : ctxt.chr_uuid = c.uuid) :
    (handle_gap_event c ctxt (some d) mtuOf appendOk).status = some 0 := by
  have h1 : ¬(ctxt.chr_uuid ≠ c.uuid) := fun hne => hne hu
  have h2 : ¬(ctxt.op = OP_READ_CHR) := by rw [hop]; decide
  unfold handle_gap_event
  rw [if_neg h1, if_neg h2, if_pos hop]

/-! ## Concrete instances for witnesses and counterexamples -/

/-- A writable characteristic with an installed on_write callback. -/
def cWrite : BLECharacteristic :=
  { BLECharacteristic.new 5 (NP_READ ||| NP_WRITE) with value := [9], has_on_write := true }

/-- A two-segment write access context against cWrite. -/
def ctxtW1 : AccessCtxt := ⟨5, OP_WRITE_CHR, 0, [[1, 2], [3]]⟩

/-- A second writable characteristic. -/
def cWrite2 : BLECharacteristic :=
  { BLECharacteristic.new 6 NP_WRITE with value := [1] }

/-- A one-segment write access context against cWrite2. -/
def ctxtW2 : AccessCtxt := ⟨6, OP_WRITE_CHR, 0, [[4, 5]]⟩

/-- A readable characteristic whose on_read callback replaces the value. -/
def cRead : BLECharacteristic :=
  { BLECharacteristic.new 4 NP_READ with value := [1, 2, 3], on_read := some (fun _ => [7, 7]) }

/-- A read access context with a long inbound header against cRead. -/
def ctxtR : AccessCtxt := ⟨4, OP_READ_CHR, 10, []⟩

/-- A notify-only characteristic with one subscriber, connection handle 7. -/
def cNotif : BLECharacteristic :=
  { BLECharacteristic.new 1 NP_NOTIFY with value := [42], subscribed_list := [(7, SUB_NOTIFY)] }

/-- A notify-only characteristic (plus Read) used for the both-flags
subscription scenario. -/
def cNotif2 : BLECharacteristic :=
  { BLECharacteristic.new 1 (NP_READ ||| NP_NOTIFY) with value := [5] }

/-- A characteristic supporting Notify and Indicate, used for subscribe and
notify scenarios. -/
def cBoth : BLECharacteristic :=
  { BLECharacteristic.new 3 (NP_NOTIFY ||| NP_INDICATE) with
    value := [8]
    subscribed_list := [(9, SUB_NOTIFY)] }

/-- A characteristic supporting only Notify with one existing subscriber. -/
def cSubW : BLECharacteristic :=
  { BLECharacteristic.new 3 NP_NOTIFY with subscribed_list := [(9, SUB_NOTIFY)] }

/-- A characteristic owning two descriptors and a stale prior table. -/
def cDesc : BLECharacteristic :=
  { BLECharacteristic.new 2 NP_READ with
    descriptors := [⟨10, 1⟩, ⟨11, 2⟩],
    svc_def_descriptors := [⟨some 99, 5, 5, true⟩] }

/-! ## C1 -/

/-- C1 counterexample: on a write access event whose connection-descriptor
lookup fails, the handler does not return normally — the unwrap panics
(status none in the model) — so the failure is fatal, refuting the claim
that the access handler returns normally.  The value is nevertheless
committed and the callback skipped. -/
theorem write_lookup_failure_is_fatal_cex :
    (handle_gap_event cWrite ctxtW1 none (fun _ => 23) true).status = none ∧
    (handle_gap_event cWrite ctxtW1 none (fun _ => 23) true).chr.value = [1, 2, 3] ∧
    (handle_gap_event cWrite ctxtW1 none (fun _ => 23) true).write_cb_arg = none := by
  refine ⟨by decide, by decide, by decide⟩

/-- C1 amended: in the write access path, if the connection-descriptor
lookup fails, the write is still committed to the value buffer and the user
on_write callback is skipped, but the access handler panics (the unwrap on
the failed lookup aborts) instead of returning normally. -/
theorem write_lookup_failure_commits_skips_panics
    (c : BLECharacteristic) (ctxt : AccessCtxt) (mtuOf : Nat → Nat) (appendOk : Bool)
    (hop : ctxt.op = OP_WRITE_CHR) (hu : ctxt.chr_uuid = c.uuid) :
    (handle_gap_event c ctxt none mtuOf appendOk).chr.value =
      concatSegs ctxt.om_segments ∧
    (handle_gap_event c ctxt none mtuOf appendOk).write_cb_arg = none ∧
    (handle_gap_event c ctxt none mtuOf appendOk).status = none :=
  ⟨hge_write_value c ctxt none mtuOf appendOk hop hu,
    (hge_write_panic c ctxt mtuOf appendOk hop hu).1,
    (hge_write_panic c ctxt mtuOf appendOk hop hu).2⟩

/-- C1 witness: the amended theorem applied at a concrete write event with
a failed lookup. -/
theorem write_lookup_failure_commits_skips_panics_witness :
    ctxtW1.op = OP_WRITE_CHR ∧ ctxtW1.chr_uuid = cWrite.uuid ∧
    ((handle_gap_event cWrite ctxtW1 none (fun _ => 24) false).chr.value =
        concatSegs ctxtW1.om_segments ∧
      (handle_gap_event cWrite ctxtW1 none (fun _ => 24) false).write_cb_arg = none ∧
      (handle_gap_event cWrite ctxtW1 none (fun _ => 24) false).status = none) :=
  ⟨by decide, by decide,
    write_lookup_failure_commits_skips_panics cWrite ctxtW1 (fun _ => 24) false
      (by decide) (by decide)⟩

/-! ## C2 -/

/-- C2 counterexample: a write access event whose connection lookup fails
does not return status 0 (the handler panics), refuting the claim that the
write branch always returns status 0. -/
theorem write_status_not_always_zero_cex :
    (handle_gap_event cWrite2 ctxtW2 none (fun _ => 23) true).status ≠ some 0 := by
  decide

/-- C2 amended: for every write access event, handle_gap_event first clears
the value buffer and then sets the value to exactly the in-order
concatenation of all chained segments (splitting the same bytes into 1 or N
segments yields the same reassembled value), and the write branch returns
status 0 whenever the connection-descriptor lookup succeeds (on lookup
failure it panics after committing the value). -/
theorem write_reassembles_chained_segments
    (c : BLECharacteristic) (ctxt : AccessCtxt) (lookup : Option ConnDesc)
    (mtuOf : Nat → Nat) (appendOk : Bool)
    (hop : ctxt.op = OP_WRITE_CHR) (hu : ctxt.chr_uuid = c.uuid) :
    (handle_gap_event c ctxt lookup mtuOf appendOk).chr.value =
      concatSegs ctxt.om_segments ∧
    (∀ d, lookup = some d →
      (handle_gap_event c ctxt lookup mtuOf appendOk).status = some 0) ∧
    (∀ segs2, concatSegs segs2 = concatSegs ctxt.om_segments →
      (handle_gap_event c { ctxt with om_segments := segs2 } lookup mtuOf appendOk).chr.value =
        (handle_gap_event c ctxt lookup mtuOf appendOk).chr.value) := by
  refine ⟨hge_write_value c ctxt lookup mtuOf appendOk hop hu, ?_, ?_⟩
  · rintro d rfl
    exact hge_write_ok_status c ctxt d mtuOf appendOk hop hu
  · intro segs2 hseg
    rw [hge_write_value c ctxt lookup mtuOf appendOk hop hu,
      hge_write_value c { ctxt with om_segments := segs2 } lookup mtuOf appendOk hop hu]
    exact hseg

/-- C2 witness: the amended theorem applied at a concrete two-segment write
with a successful lookup. -/
theorem write_reassembles_chained_segments_witness :
    ctxtW2.op = OP_WRITE_CHR ∧ ctxtW2.chr_uuid = cWrite2.uuid ∧
    ((handle_gap_event cWrite2 ctxtW2 (some ⟨9⟩) (fun _ => 23) true).chr.value =
        concatSegs ctxtW2.om_segments ∧
      (∀ d, (some ⟨9⟩ : Option ConnDesc) = some d →
        (handle_gap_event cWrite2 ctxtW2 (some ⟨9⟩) (fun _ => 23) true).status = some 0) ∧
      (∀ segs2, concatSegs segs2 = concatSegs ctxtW2.om_segments →
        (handle_gap_event cWrite2 { ctxtW2 with om_segments := segs2 }
            (some ⟨9⟩) (fun _ => 23) true).chr.value =
          (handle_gap_event cWrite2 ctxtW2 (some ⟨9⟩) (fun _ => 23) true).chr.value)) :=
  ⟨by decide, by decide,
    write_reassembles_chained_segments cWrite2 ctxtW2 (some ⟨9⟩) (fun _ => 23) true
      (by decide) (by decide)⟩

/-! ## C3 -/

/-- C3: in the read access path, the on_read callback (when registered) is
invoked exactly when the inbound header length exceeds 8 or the current
value length is at most the (u16-wrapped) negotiated MTU minus 3; the bytes
appended to the outbound buffer are exactly the post-callback value; a
successful append returns 0 and a failed append returns the
insufficient-resources code. -/
theorem read_callback_before_serialize
    (c : BLECharacteristic) (ctxt : AccessCtxt) (d : ConnDesc)
    (mtuOf : Nat → Nat) (appendOk : Bool)
    (hop : ctxt.op = OP_READ_CHR) (hu : ctxt.chr_uuid = c.uuid) :
    ((handle_gap_event c ctxt (some d) mtuOf appendOk).read_cb_invoked = true ↔
      ((8 < ctxt.om_pkthdr_len ∨
          c.value.length ≤ (mtuOf d.conn_handle + 65533) % 65536) ∧
        c.on_read.isSome = true)) ∧
    (handle_gap_event c ctxt (some d) mtuOf appendOk).appended =
      some ((handle_gap_event c ctxt (some d) mtuOf appendOk).chr.value) ∧
    (handle_gap_event c ctxt (some d) mtuOf appendOk).chr.value =
      (if 8 < ctxt.om_pkthdr_len ∨
          c.value.length ≤ (mtuOf d.conn_handle + 65533) % 65536 then
        (match c.on_read with
          | some cb => cb c.value
          | none => c.value)
      else c.value) ∧
    (handle_gap_event c ctxt (some d) mtuOf appendOk).status =
      some (if appendOk then 0 else BLE_ATT_ERR_INSUFFICIENT_RES) := by
  by_cases hcond : 8 < ctxt.om_pkthdr_len ∨
      c.value.length ≤ (mtuOf d.conn_handle + 65533) % 65536
  · cases hr : c.on_read with
    | some cb => simp [handle_gap_event, hu, hop, hcond, hr, OP_READ_CHR]
    | none => simp [handle_gap_event, hu, hop, hcond, hr, OP_READ_CHR]
  · simp [handle_gap_event, hu, hop, hcond, OP_READ_CHR]

/-- C3 witness: the theorem applied at a concrete read with a registered
callback and a long inbound header. -/
theorem read_callback_before_serialize_witness :
    ctxtR.op = OP_READ_CHR ∧ ctxtR.chr_uuid = cRead.uuid ∧
    (handle_gap_event cRead ctxtR (some ⟨9⟩) (fun _ => 23) true).appended =
      some ((handle_gap_event cRead ctxtR (some ⟨9⟩) (fun _ => 23) true).chr.value) :=
  ⟨by decide, by decide,
    (read_callback_before_serialize cRead ctxtR ⟨9⟩ (fun _ => 23) true
      (by decide) (by decide)).2.1⟩

/-! ## C4 -/

/-- C4: for every subscription-update event (with a successful connection
lookup), the effective flags are the requested notify/indicate indicators
intersected with the capability flags; the entry for the connection ends up
present with exactly those flags when they are non-empty and absent when
they are empty, and every other connection is unaffected. -/
theorem subscribe_effective_flags_and_list_update
    (c : BLECharacteristic) (h cn ci : Nat)
    (hnd : (c.subscribed_list.map Prod.fst).Nodup) :
    subVal c.properties cn ci = requestedFlags cn ci &&& capabilityFlags c.properties ∧
    subLookup (subscribe c h cn ci true).subscribed_list h =
      (if subVal c.properties cn ci = 0 then none
        else some (subVal c.properties cn ci)) ∧
    (∀ h2, h2 ≠ h → subLookup (subscribe c h cn ci true).subscribed_list h2 =
      subLookup c.subscribed_list h2) := by
  have hs : subscribe c h cn ci true =
      { c with subscribed_list :=
          subUpdate c.subscribed_list h (subVal c.properties cn ci) } := by
    unfold subscribe
    rw [if_neg (by decide : ¬((true : Bool) = false))]
  refine ⟨subVal_eq_masked _ _ _, ?_, ?_⟩
  · rw [hs]
    exact subUpdate_lookup_self hnd
  · intro h2 hne
    rw [hs]
    exact subUpdate_lookup_other hnd hne

/-- C4 witness: the theorem applied at a characteristic supporting only
Notify with a peer requesting both Notify and Indicate; the effective flags
are exactly Notify. -/
theorem subscribe_effective_flags_and_list_update_witness :
    (cSubW.subscribed_list.map Prod.fst).Nodup ∧
    subVal cSubW.properties 1 1 = requestedFlags 1 1 &&& capabilityFlags cSubW.properties ∧
    subLookup (subscribe cSubW 7 1 1 true).subscribed_list 7 =
      (if subVal cSubW.properties 1 1 = 0 then none else some (subVal cSubW.properties 1 1)) :=
  ⟨by decide,
    (subscribe_effective_flags_and_list_update cSubW 7 1 1 (by decide)).1,
    (subscribe_effective_flags_and_list_update cSubW 7 1 1 (by decide)).2.1⟩

/-! ## C5 -/

/-- C5: construct_svc_def_descriptors yields a null table for zero
descriptors; for N descriptors it rebuilds the table from scratch (the
result does not depend on any prior table) and produces exactly N+1
entries: one per descriptor in insertion order, then the zero terminator. -/
theorem construct_descriptor_table (c : BLECharacteristic) :
    (c.descriptors = [] → construct_svc_def_descriptors c = (c, none)) ∧
    (c.descriptors ≠ [] →
      (construct_svc_def_descriptors c).2 =
        some ((construct_svc_def_descriptors c).1.svc_def_descriptors) ∧
      (construct_svc_def_descriptors c).1.svc_def_descriptors =
        c.descriptors.map dscEntry ++ [BleGattDscDef.zero] ∧
      ((construct_svc_def_descriptors c).1.svc_def_descriptors).length =
        c.descriptors.length + 1 ∧
      (∀ t0, (construct_svc_def_descriptors
          { c with svc_def_descriptors := t0 }).1.svc_def_descriptors =
        (construct_svc_def_descriptors c).1.svc_def_descriptors)) := by
  constructor
  · intro he
    unfold construct_svc_def_descriptors
    rw [if_pos (by simp [he])]
  · intro he
    have hne : ¬(c.descriptors.isEmpty = true) := by
      simp only [List.isEmpty_iff]
      exact he
    refine ⟨?_, ?_, ?_, ?_⟩
    · unfold construct_svc_def_descriptors
      rw [if_neg hne]
    · unfold construct_svc_def_descriptors
      rw [if_neg hne]
      simp [foldl_dscEntry]
    · unfold construct_svc_def_descriptors
      rw [if_neg hne]
      simp [foldl_dscEntry]
    · intro t0
      unfold construct_svc_def_descriptors
      rw [if_neg hne, if_neg hne]

/-- C5 witness: the theorem applied at a characteristic with two
descriptors and a stale prior table. -/
theorem construct_descriptor_table_witness :
    cDesc.descriptors ≠ [] ∧
    (construct_svc_def_descriptors cDesc).1.svc_def_descriptors =
      cDesc.descriptors.map dscEntry ++ [BleGattDscDef.zero] ∧
    ((construct_svc_def_descriptors cDesc).1.svc_def_descriptors).length =
      cDesc.descriptors.length + 1 :=
  ⟨by decide,
    ((construct_descriptor_table cDesc).2 (by decide)).2.1,
    ((construct_descriptor_table cDesc).2 (by decide)).2.2.1⟩

/-! ## C6 -/

/-- C6: during notify(), for a connection subscribed to Indicate on a
characteristic supporting Indicate (with a nonzero wrapped payload size):
if an indication is already in flight for the connection, no outbound call
is made and the in-flight flag stays set; otherwise exactly one indication
is submitted and the in-flight flag ends set when the submission returned 0
and cleared when it returned nonzero. -/
theorem notify_indicate_flow_control
    (c : BLECharacteristic) (mtuOf : Nat → Nat) (rcOf : Nat → Int)
    (srv : ServerState) (conn flags : Nat)
    (h1 : subContains flags SUB_INDICATE = true)
    (h2 : npContains c.properties NP_INDICATE = true)
    (hm : (mtuOf conn + 65533) % 65536 ≠ 0) :
    (conn ∈ srv.indicateInFlight →
      notifyStep c mtuOf rcOf srv conn flags = (srv, []) ∧
      conn ∈ (notifyStep c mtuOf rcOf srv conn flags).1.indicateInFlight) ∧
    (conn ∉ srv.indicateInFlight →
      (notifyStep c mtuOf rcOf srv conn flags).2 =
        [⟨conn, CallKind.indicate, c.value⟩] ∧
      (notifyStep c mtuOf rcOf srv conn flags).1.indicateInFlight =
        (if rcOf conn = 0 then conn :: srv.indicateInFlight
          else srv.indicateInFlight)) := by
  have hne0 : flags ≠ 0 := ne_zero_of_subContains (by decide) h1
  have hguard : ¬((mtuOf conn + 65533) % 65536 = 0 ∨ subIsEmpty flags = true) := by
    rintro (hc | hc)
    · exact hm hc
    · rw [subIsEmpty] at hc
      exact hne0 (by simpa using hc)
  constructor
  · intro hin
    have hset : setIndicateWait srv conn = (false, srv) := by
      simp [setIndicateWait, hin]
    constructor
    · simp [notifyStep, hguard, h1, h2, hset]
    · simp [notifyStep, hguard, h1, h2, hset, hin]
  · intro hout
    have hset : setIndicateWait srv conn = (true, ⟨conn :: srv.indicateInFlight⟩) := by
      simp [setIndicateWait, hout]
    by_cases hrc : rcOf conn = 0
    · constructor
      · simp [notifyStep, hguard, h1, h2, hset, hrc]
      · simp [notifyStep, hguard, h1, h2, hset, hrc]
    · constructor
      · simp [notifyStep, hguard, h1, h2, hset, hrc]
      · simp [notifyStep, hguard, h1, h2, hset, hrc, clearIndicateWait,
          List.erase_cons_head]

/-- C6 witness: the theorem applied at a characteristic supporting Indicate,
once with the indication in flight (no call, flag kept) and once without
(one indication submitted, flag rolled back on a failing return code). -/
theorem notify_indicate_flow_control_witness :
    subContains SUB_INDICATE SUB_INDICATE = true ∧
    npContains cBoth.properties NP_INDICATE = true ∧
    (notifyStep cBoth (fun _ => 23) (fun _ => 1) ⟨[4]⟩ 4 SUB_INDICATE = (⟨[4]⟩, [])) ∧
    ((notifyStep cBoth (fun _ => 23) (fun _ => 1) ⟨[]⟩ 4 SUB_INDICATE).2 =
      [⟨4, CallKind.indicate, [8]⟩]) :=
  ⟨by decide, by decide,
    ((notify_indicate_flow_control cBoth (fun _ => 23) (fun _ => 1) ⟨[4]⟩ 4 SUB_INDICATE
      (by decide) (by decide) (by decide)).1 (by decide)).1,
    ((notify_indicate_flow_control cBoth (fun _ => 23) (fun _ => 1) ⟨[]⟩ 4 SUB_INDICATE
      (by decide) (by decide) (by decide)).2 (by decide)).1⟩

/-! ## C7 -/

/-- C7 counterexample: a subscriber whose negotiated MTU is 2 (below the
3-byte overhead) is not skipped — the u16 computation 2 - 3 wraps to 65535,
so notify() submits a notification, refuting the claim that every MTU whose
usable payload is zero (including MTU values below 3) is skipped. -/
theorem notify_mtu_below_overhead_not_skipped_cex :
    (notify cNotif (fun _ => 2) (fun _ => 0) ⟨[]⟩).2 =
      [⟨7, CallKind.notify, [42]⟩] := by
  decide

/-- C7 amended: a subscribed connection is skipped whenever the wrapped u16
computation (MTU + 2^16 - 3) mod 2^16 equals zero; for a genuine u16 MTU
this happens exactly at MTU = 3, so MTU values below the 3-byte overhead
wrap around to a nonzero value and are not skipped. -/
theorem notify_skip_on_wrapped_zero_payload
    (c : BLECharacteristic) (mtuOf : Nat → Nat) (rcOf : Nat → Int)
    (srv : ServerState) (conn flags : Nat) :
    ((mtuOf conn + 65533) % 65536 = 0 →
      notifyStep c mtuOf rcOf srv conn flags = (srv, [])) ∧
    (mtuOf conn < 65536 →
      (((mtuOf conn + 65533) % 65536 = 0) ↔ mtuOf conn = 3)) := by
  constructor
  · intro hz
    unfold notifyStep
    rw [if_pos (Or.inl hz)]
  · intro hlt
    exact mtu_wrap_eq_zero_iff hlt

/-- C7 witness: the amended theorem applied at MTU = 3, where the wrapped
payload size is zero and the subscriber is skipped. -/
theorem notify_skip_on_wrapped_zero_payload_witness :
    ((3 : Nat) + 65533) % 65536 = 0 ∧
    notifyStep cNotif (fun _ => 3) (fun _ => 0) ⟨[]⟩ 7 SUB_NOTIFY = (⟨[]⟩, []) :=
  ⟨by decide,
    (notify_skip_on_wrapped_zero_payload cNotif (fun _ => 3) (fun _ => 0) ⟨[]⟩
      7 SUB_NOTIFY).1 (by decide)⟩

/-! ## C8 -/

/-- C8: in a single notify() pass, Indicate and Notify are mutually
exclusive per connection (given unique connection handles): no connection
receives both kinds; a subscriber qualifying for Indicate only ever
receives indications; and a connection subscribed to both flags on a
characteristic supporting only Notify receives exactly one Notify
submission and no Indicate submission. -/
theorem notify_exclusive_per_connection
    (c : BLECharacteristic) (mtuOf : Nat → Nat) (rcOf : Nat → Int)
    (srv : ServerState) :
    ((c.subscribed_list.map Prod.fst).Nodup →
      ∀ conn, ¬((∃ x ∈ (notify c mtuOf rcOf srv).2,
          x.conn = conn ∧ x.kind = CallKind.indicate) ∧
        (∃ x ∈ (notify c mtuOf rcOf srv).2,
          x.conn = conn ∧ x.kind = CallKind.notify))) ∧
    (∀ srv2 conn flags,
      subContains flags SUB_INDICATE = true →
      npContains c.properties NP_INDICATE = true →
      ∀ x ∈ (notifyStep c mtuOf rcOf srv2 conn flags).2,
        x.kind = CallKind.indicate) ∧
    (∀ srv2 conn flags, flags = SUB_NOTIFY ||| SUB_INDICATE →
      npContains c.properties NP_NOTIFY = true →
      npContains c.properties NP_INDICATE = false →
      (mtuOf conn + 65533) % 65536 ≠ 0 →
      (notifyStep c mtuOf rcOf srv2 conn flags).2 =
        [⟨conn, CallKind.notify, c.value⟩]) := by
  refine ⟨?_, ?_, ?_⟩
  · intro hnd conn hcontra
    obtain ⟨⟨x1, hx1, hc1, hk1⟩, ⟨x2, hx2, hc2, hk2⟩⟩ := hcontra
    by_cases hemp : c.subscribed_list.isEmpty = true
    · simp [notify, hemp] at hx1
    · simp only [notify, if_neg hemp] at hx1 hx2
      obtain ⟨e1, he1, s1, hs1⟩ := notifyLoop_mem hx1
      obtain ⟨e2, he2, s2, hs2⟩ := notifyLoop_mem hx2
      have hee : e1 = e2 := by
        refine entry_eq_of_fst_eq hnd he1 he2 ?_
        rw [← notifyStep_conn hs1, hc1, ← notifyStep_conn hs2, hc2]
      subst hee
      by_cases hind : subContains e1.2 SUB_INDICATE = true ∧
          npContains c.properties NP_INDICATE = true
      · have hk := notifyStep_kind_of_indicate hind hs2
        rw [hk2] at hk
        exact CallKind.noConfusion hk
      · have hk := notifyStep_kind_of_not_indicate hind hs1
        rw [hk1] at hk
        exact CallKind.noConfusion hk
  · intro srv2 conn flags ha hb x hx
    exact notifyStep_kind_of_indicate ⟨ha, hb⟩ hx
  · rintro srv2 conn flags rfl hN hIf hm
    have hg : ¬((mtuOf conn + 65533) % 65536 = 0 ∨
        subIsEmpty (SUB_NOTIFY ||| SUB_INDICATE) = true) := by
      rintro (hc | hc)
      · exact hm hc
      · revert hc
        decide
    have hni : ¬(subContains (SUB_NOTIFY ||| SUB_INDICATE) SUB_INDICATE = true ∧
        npContains c.properties NP_INDICATE = true) := by
      rintro ⟨-, hq⟩
      rw [hIf] at hq
      exact Bool.false_ne_true hq
    unfold notifyStep
    rw [if_neg hg, if_neg hni, if_pos ⟨by decide, hN⟩]

/-- C8 witness: a connection subscribed to both Notify and Indicate on a
characteristic supporting only Notify receives exactly one Notify call. -/
theorem notify_exclusive_per_connection_witness :
    npContains cNotif2.properties NP_NOTIFY = true ∧
    npContains cNotif2.properties NP_INDICATE = false ∧
    (notifyStep cNotif2 (fun _ => 23) (fun _ => 0) ⟨[]⟩ 7
        (SUB_NOTIFY ||| SUB_INDICATE)).2 =
      [⟨7, CallKind.notify, [5]⟩] :=
  ⟨by decide, by decide,
    (notify_exclusive_per_connection cNotif2 (fun _ => 23) (fun _ => 0) ⟨[]⟩).2.2
      ⟨[]⟩ 7 (SUB_NOTIFY ||| SUB_INDICATE) rfl (by decide) (by decide) (by decide)⟩

/-! ## C9 -/

/-- C9: handle_gap_event returns the unlikely error code with the
characteristic state unchanged, both on a UUID mismatch and on an operation
kind that is neither characteristic read nor characteristic write. -/
theorem gap_event_unlikely_on_mismatch
    (c : BLECharacteristic) (ctxt : AccessCtxt) (lookup : Option ConnDesc)
    (mtuOf : Nat → Nat) (appendOk : Bool) :
    (ctxt.chr_uuid ≠ c.uuid →
      handle_gap_event c ctxt lookup mtuOf appendOk =
        ⟨c, none, none, false, some BLE_ATT_ERR_UNLIKELY⟩) ∧
    (ctxt.chr_uuid = c.uuid → ctxt.op ≠ OP_READ_CHR → ctxt.op ≠ OP_WRITE_CHR →
      handle_gap_event c ctxt lookup mtuOf appendOk =
        ⟨c, none, none, false, some BLE_ATT_ERR_UNLIKELY⟩) := by
  constructor
  · intro hne
    unfold handle_gap_event
    rw [if_pos hne]
  · intro hu hr hw
    unfold handle_gap_event
    rw [if_neg (fun hne => hne hu), if_neg hr, if_neg hw]

/-- An access context whose UUID does not match cRead. -/
def ctxtBadUuid : AccessCtxt := ⟨99, OP_READ_CHR, 0, []⟩

/-- An access context with a descriptor-read operation kind (neither
characteristic read nor characteristic write). -/
def ctxtBadOp : AccessCtxt := ⟨4, 2, 0, []⟩

/-- C9 witness: the theorem applied at a concrete UUID mismatch and at a
concrete unsupported operation kind. -/
theorem gap_event_unlikely_on_mismatch_witness :
    ctxtBadUuid.chr_uuid ≠ cRead.uuid ∧ ctxtBadOp.op ≠ OP_READ_CHR ∧
    handle_gap_event cRead ctxtBadUuid none (fun _ => 23) true =
      ⟨cRead, none, none, false, some BLE_ATT_ERR_UNLIKELY⟩ ∧
    handle_gap_event cRead ctxtBadOp none (fun _ => 23) true =
      ⟨cRead, none, none, false, some BLE_ATT_ERR_UNLIKELY⟩ :=
  ⟨by decide, by decide,
    (gap_event_unlikely_on_mismatch cRead ctxtBadUuid none (fun _ => 23) true).1
      (by decide),
    (gap_event_unlikely_on_mismatch cRead ctxtBadOp none (fun _ => 23) true).2
      (by decide) (by decide) (by decide)⟩

/-! ## C10 -/

/-- C10: the subscribed_list invariant — unique connection handles, and
every entry with non-empty flags inside the capability flags — holds for a
freshly constructed characteristic and is preserved by every subscribe
call. -/
theorem subscribed_list_invariant_preserved :
    (∀ u p, SubInv p (BLECharacteristic.new u p).subscribed_list) ∧
    (∀ (c : BLECharacteristic) (h cn ci : Nat) (lk : Bool),
      SubInv c.properties c.subscribed_list →
      SubInv c.properties (subscribe c h cn ci lk).subscribed_list) := by
  constructor
  · intro u p
    exact ⟨by simp [BLECharacteristic.new], by simp [BLECharacteristic.new]⟩
  · intro c h cn ci lk hinv
    cases lk with
    | false =>
      unfold subscribe
      rw [if_pos rfl]
      exact hinv
    | true =>
      have hs : subscribe c h cn ci true =
          { c with subscribed_list :=
              subUpdate c.subscribed_list h (subVal c.properties cn ci) } := by
        unfold subscribe
        rw [if_neg (by decide : ¬((true : Bool) = false))]
      rw [hs]
      exact subUpdate_inv hinv (subVal_masked_self _ _ _)

/-- C10 witness: the invariant holds on a concrete state and is preserved
by a concrete subscribe call. -/
theorem subscribed_list_invariant_preserved_witness :
    SubInv cSubW.properties cSubW.subscribed_list ∧
    SubInv cSubW.properties (subscribe cSubW 7 1 1 true).subscribed_list :=
  ⟨by decide, subscribed_list_invariant_preserved.2 cSubW 7 1 1 true (by decide)⟩

end BleChr
